import Mathlib

/-!
Shallow embedding of the piecut program (src/main.rs): the scan pipeline
(`meets_time_condition`, `get_lame_files`), the size formatter
(`to_readable_size`), the chart-data builder (`create_current_data`) and the
interactive deletion session (`process_input`, the `main` loop), together with
theorems settling the frozen claims about them.

Modelling conventions:
* machine integers (`u64`, `usize`) are `Nat`; an arithmetic operation or an
  index access that panics in the source is modelled as `none` / `.error ()`;
* `SystemTime` is a nanosecond count since the epoch, `Duration` a nanosecond
  count; `Duration::as_secs` truncates to whole seconds as in the source;
* `f64`/`f32` arithmetic appears in two places: the choice of a size unit via
  `f64::log`, modelled as the exact integer logarithm (`size_exponent`), and
  slice values `size as f32 / total as f32`, modelled as exact rationals; no
  claim depends on floating-point rounding;
* effects are made explicit: the walk is a list of entries, printed diagnostics
  are an accumulated list, operator input and the confirm-and-delete
  collaborator answer are parameters.
-/

deriving instance DecidableEq for Except

namespace Piecut

/-- `NUM_FILES_SHOWN` from the source: the fixed page size. -/
def NUM_FILES_SHOWN : Nat := 5

/-- `SIZE_CONVERT_SUFFIXES` from the source. -/
def SIZE_CONVERT_SUFFIXES : List String := ["Byte", "KiB", "MiB", "GiB", "TiB"]

/-- `LameFile` from the source: a deletion candidate, its size in bytes and its
path (the `PathBuf` is modelled as a plain string). -/
structure LameFile where
  size : Nat
  path : String
deriving DecidableEq, Repr

/-- The integer part of `log_1024` of a byte count, as the source computes with
`(m as f64).log(1024.).floor()`; modelled as the exact integer logarithm (the
floating-point rounding of the logarithm right at exact powers of 1024 is
abstracted away). Every `u64` value is below `1024 ^ 7`, so the final branch
covers the whole machine range. -/
def size_exponent (m : Nat) : Nat :=
  if m < 1024 then 0
  else if m < 1024 ^ 2 then 1
  else if m < 1024 ^ 3 then 2
  else if m < 1024 ^ 4 then 3
  else if m < 1024 ^ 5 then 4
  else if m < 1024 ^ 6 then 5
  else 6

/-- Two-digit, zero-padded rendering of a number below 100. -/
def two_digits (n : Nat) : String :=
  if n < 10 then "0" ++ toString n else toString n

/-- The `"{:.2}"` rendering of the scaled size `m / 1024 ^ e`, modelled in exact
rational arithmetic with round half up (the source computes it on `f64` and
formats with round half to even; no claim depends on these digits). -/
def mantissa_string (m e : Nat) : String :=
  let p := 1024 ^ e
  let centis := (m * 200 + p) / (2 * p)
  toString (centis / 100) ++ "." ++ two_digits (centis % 100)

/-- `to_readable_size` from the source. A byte count of 0 is treated as 1 when
choosing the magnitude. `none` models the index-out-of-range panic of
`SIZE_CONVERT_SUFFIXES[floored as usize]` when the exponent reaches 5: the
suffix array has five entries and the source does not clamp the index. -/
def to_readable_size (size : Nat) : Option String :=
  let m := max size 1
  let floored := size_exponent m
  if floored < 5 then
    some (mantissa_string m floored ++ " " ++ SIZE_CONVERT_SUFFIXES.getD floored "")
  else none

/-- `SystemTime::duration_since`: defined exactly when the argument is not later
than `self`; both times are nanosecond counts. -/
def duration_since (now earlier : Nat) : Option Nat :=
  if earlier ≤ now then some (now - earlier) else none

/-- `Duration::as_secs`: whole seconds, truncating the subsecond part. -/
def as_secs (d : Nat) : Nat := d / 1000000000

/-- `meets_time_condition` from the source: a disabled threshold (0) always
passes; an undefined age (timestamp after `now`) never passes; otherwise the
truncated whole-second age must strictly exceed the threshold. -/
def meets_time_condition (now : Nat) (min_value : Nat) (actual_value : Nat) : Bool :=
  if min_value = 0 then true
  else
    match duration_since now actual_value with
    | some dur => decide (min_value < as_secs dur)
    | none => false

/-- `fs::Metadata` as the scan reads it: the length, the regular-file flag and
the three timestamp accessors, each of which is fallible (`io::Result`). -/
structure Metadata where
  len : Nat
  is_file : Bool
  created : Except Unit Nat
  modified : Except Unit Nat
  accessed : Except Unit Nat
deriving DecidableEq, Repr

/-- One `DirEntry` yielded by the walk: its (fallible) metadata and its path. -/
structure DirEntry where
  metadata : Except Unit Metadata
  path : String
deriving DecidableEq, Repr

/-- One item of the `WalkDir` iterator: a readable entry, or a traversal error
carrying its message. A root directory that cannot be opened yields a single
error item; the stream itself always ends. -/
abbrev WalkEntry := Except String DirEntry

/-- Whether a walk item was yielded successfully. -/
def walk_ok : WalkEntry → Bool
  | .ok _ => true
  | .error _ => false

/-- Whether an `Except` read succeeded. -/
def except_ok {ε α : Type} : Except ε α → Bool
  | .ok _ => true
  | .error _ => false

/-- The condition of the `if` inside `get_lame_files`, with Rust shortcut
evaluation: `metadata.is_file() && meets_time_condition(now, min_created,
metadata.created()?) && ... (modified) ... && ... (accessed)`. A timestamp
accessor is only consulted, and its failure only propagated, when every earlier
conjunct was true. -/
def entry_eligible (now min_created min_modified min_accessed : Nat)
    (md : Metadata) : Except Unit Bool :=
  if md.is_file then
    match md.created with
    | .error e => .error e
    | .ok c =>
      if meets_time_condition now min_created c then
        match md.modified with
        | .error e => .error e
        | .ok m =>
          if meets_time_condition now min_modified m then
            match md.accessed with
            | .error e => .error e
            | .ok a => .ok (meets_time_condition now min_accessed a)
          else .ok false
      else .ok false
  else .ok false

/-- The traversal loop of `get_lame_files`, carrying the running total size, the
candidate list in discovery order and the diagnostic lines printed so far. A
walk error is skipped with a diagnostic; a failing metadata read, or a failing
timestamp read reached by the shortcut condition, is propagated by `?` and
aborts the whole scan. The size of every successfully read entry, directory or
not, is added to the total after the filter test. -/
def scan_entries (now min_created min_modified min_accessed : Nat) :
    List WalkEntry → Nat → List LameFile → List String →
      Except Unit (Nat × List LameFile × List String)
  | [], total_size, files, diags => .ok (total_size, files, diags)
  | .error msg :: rest, total_size, files, diags =>
      scan_entries now min_created min_modified min_accessed rest total_size files
        (diags ++ [msg ++ ". Skipping..."])
  | .ok entry :: rest, total_size, files, diags =>
      match entry.metadata with
      | .error _ => .error ()
      | .ok md =>
        match entry_eligible now min_created min_modified min_accessed md with
        | .error _ => .error ()
        | .ok cond =>
            scan_entries now min_created min_modified min_accessed rest
              (total_size + md.len)
              (files ++ (if cond then [⟨md.len, entry.path⟩] else [])) diags

/-- `get_lame_files` from the source, over a modelled walk-entry stream; `now`
stands for the `SystemTime::now()` taken at the start. The final unstable
size-descending sort is modelled with `insertionSort` (no claim depends on the
order of equal-size entries). The third component of a successful result lists
the diagnostics printed for skipped walk errors. -/
def get_lame_files (entries : List WalkEntry)
    (now min_created min_modified min_accessed : Nat) :
    Except Unit (Nat × List LameFile × List String) :=
  match scan_entries now min_created min_modified min_accessed entries 0 [] [] with
  | .error e => .error e
  | .ok (total_size, files, diags) =>
      .ok (total_size, List.insertionSort (fun a b => b.size ≤ a.size) files, diags)

/-- Checked `u64` subtraction: `none` models the overflow panic of `a - b`. -/
def checkedSub (a b : Nat) : Option Nat :=
  if b ≤ a then some (a - b) else none

/-- `piechart::Color`. -/
inductive PColor
  | fixed (n : Nat)
  | rgb (r g b : Nat)
deriving DecidableEq, Repr

/-- `piechart::Data`: one visualization slice. `value` models the `f32` ratio as
an exact rational; no claim depends on `f32` rounding. -/
structure Data where
  label : String
  value : ℚ
  color : PColor
  fill : Char
deriving DecidableEq, Repr

/-- `PathBuf::file_name` as used for display: the component after the last
separator. -/
def file_name (p : String) : String :=
  ((p.splitOn "/").getLast?).getD ""

/-- Right alignment to width 11, the `"{:>11}"` of the `Display` impl. -/
def pad_left_11 (s : String) : String :=
  String.mk (List.replicate (11 - s.length) ' ') ++ s

/-- The `Display` rendering of a `LameFile` (source line 19); the `Debug`
rendering of the file name adds quotes. `none` models the panic of
`to_readable_size` on a size of a pebibyte or more. -/
def lame_display (f : LameFile) : Option String :=
  (to_readable_size f.size).map
    (fun s => pad_left_11 s ++ " -- " ++ "\"" ++ file_name f.path ++ "\"")

/-- The per-file slice label built in `create_current_data`, where `i` is the
0-based position within the page: the slot number shown is `i + 1`. -/
def slice_label (i : Nat) (f : LameFile) : Option String :=
  (lame_display f).map (fun d => "(" ++ toString (i + 1) ++ ") " ++ d)

/-- The iterator chain of `create_current_data`: skip to the page, take one page
of candidates, pair each with its mask slot, enumerate the pairs (so the index
is the position within the page), drop the already-deleted slots, keep the
index-file pairs. The `[bool; NUM_FILES_SHOWN]` mask is modelled as a function
on `Nat` that the code only consults at indices below `NUM_FILES_SHOWN`. -/
def page_survivors (files : List LameFile) (skip : Nat) (deleted : Nat → Bool) :
    List (Nat × LameFile) :=
  ((((files.drop skip).take NUM_FILES_SHOWN).zip
        (List.ofFn (fun j : Fin NUM_FILES_SHOWN => deleted j))).enum.filter
      (fun x => !x.2.2)).map (fun x => (x.1, x.2.1))

/-- The `data_size` accumulated in `create_current_data`: the sizes of the
per-file slices actually emitted (the surviving candidates of the page). -/
def page_live_size (files : List LameFile) (skip : Nat) (deleted : Nat → Bool) :
    Nat :=
  ((page_survivors files skip deleted).map (fun x => x.2.size)).sum

/-- Builds the per-file slices, one per surviving `(page index, file)` pair, in
order; `none` models a panic while formatting a label. Each slice carries the
page-indexed label, the size divided by the live total, the fixed color `i + 1`
and the bullet fill. -/
def build_slices (total_size : Nat) : List (Nat × LameFile) → Option (List Data)
  | [] => some []
  | (i, f) :: rest =>
    match slice_label i f with
    | none => none
    | some l =>
      match build_slices total_size rest with
      | none => none
      | some ds =>
          some ({ label := l, value := (f.size : ℚ) / (total_size : ℚ),
                  color := PColor.fixed (i + 1), fill := '•' } :: ds)

/-- `create_current_data` from the source: the per-file slices of the current
page followed by the single aggregate Other slice, whose size is the live total
minus the emitted sizes and whose value is that size over the live total.
`none` models a panic: label formatting, or `u64` underflow of
`total_size - data_size`. -/
def create_current_data (files : List LameFile) (skip : Nat) (total_size : Nat)
    (deleted : Nat → Bool) : Option (List Data) :=
  match build_slices total_size (page_survivors files skip deleted) with
  | none => none
  | some ds =>
    match checkedSub total_size (page_live_size files skip deleted) with
    | none => none
    | some other_size =>
      match to_readable_size other_size with
      | none => none
      | some s =>
          some (ds ++ [{ label := "Other: " ++ s,
                         value := (other_size : ℚ) / (total_size : ℚ),
                         color := PColor.rgb 100 100 100, fill := '-' }])

/-- The mutable state owned by the session loop in `main`: the pagination
offset `skip`, the live `total_size` and the per-page `deleted` mask. -/
structure SessionState where
  skip : Nat
  total_size : Nat
  deleted : Nat → Bool

/-- The operator input line after `trim().to_uppercase()`, as the `match` and
the `parse::<usize>()` in `process_input` see it: the line N, the line Q, a
line parsing as a number, or a line that does not parse as a number. -/
inductive Input
  | pageNext
  | quitCmd
  | numeric (k : Nat)
  | notNumeric
deriving DecidableEq, Repr

/-- The answer of the external `confirm_file_deletion` collaborator:
`Ok(true)` (file deleted), `Ok(false)` (operator declined) or `Err(_)`. -/
inductive DelOutcome
  | fileDeleted
  | declined
  | failed
deriving DecidableEq, Repr

/-- `process_input` from the source. The blocking line read and the
confirm-and-delete collaborator are external and arrive as `inp` and `out`.
Returns `(quit, new state, deleted index)`, the third component recording the
absolute candidate index whose deletion succeeded (it mirrors the observable
"File deleted" path and instruments the accounting invariant). `.error ()`
models a panic: `files[skip + index]` out of bounds when the slot number is
within `1..=NUM_FILES_SHOWN` but beyond the candidate list, or `u64` underflow
of `total_size -= file.size`. -/
def process_input (files : List LameFile) (st : SessionState) (inp : Input)
    (out : DelOutcome) : Except Unit (Bool × SessionState × Option Nat) :=
  match inp with
  | .pageNext =>
    if files.length ≤ st.skip + NUM_FILES_SHOWN then .ok (true, st, none)
    else .ok (false, ⟨st.skip + NUM_FILES_SHOWN, st.total_size, fun _ => false⟩, none)
  | .quitCmd => .ok (true, st, none)
  | .numeric k =>
    if 1 ≤ k ∧ k ≤ NUM_FILES_SHOWN then
      if st.deleted (k - 1) then .ok (false, st, none)
      else
        match files[st.skip + (k - 1)]? with
        | none => .error ()
        | some file =>
          match out with
          | .fileDeleted =>
            match checkedSub st.total_size file.size with
            | none => .error ()
            | some t =>
                .ok (false, ⟨st.skip, t, Function.update st.deleted (k - 1) true⟩,
                  some (st.skip + (k - 1)))
          | .declined => .ok (false, st, none)
          | .failed => .ok (false, st, none)
    else .ok (false, st, none)
  | .notNumeric => .ok (false, st, none)

/-- Prepends a recorded deletion, if any, to the history. -/
def consIdx (d : Option Nat) (hist : List Nat) : List Nat :=
  match d with
  | none => hist
  | some j => j :: hist

/-- Iterates `process_input` over a list of operator inputs paired with the
collaborator answers, as the `while !quit` loop of `main` does, accumulating
the absolute indices of the candidates whose deletion succeeded; stops when a
transition reports quit, and propagates a panic. -/
def run_session (files : List LameFile) :
    SessionState → List Nat → List (Input × DelOutcome) →
      Except Unit (SessionState × List Nat)
  | st, hist, [] => .ok (st, hist)
  | st, hist, (inp, out) :: rest =>
    match process_input files st inp out with
    | .error e => .error e
    | .ok (true, st2, d) => .ok (st2, consIdx d hist)
    | .ok (false, st2, d) => run_session files st2 (consIdx d hist) rest

/-- The observable actions of one iteration of the `while !quit` loop in
`main`, in program order. -/
inductive MainEvent
  | buildData (total_size : Nat)
  | drawChart
  | promptInput
  | quitMessage
deriving DecidableEq, Repr

/-- One iteration of the loop in `main`, up to the point where it would block
on operator input: `create_current_data` is called first, then `total_size <= 0`
is tested; only in the nonzero branch are the chart drawn and the prompt shown.
Returns the built chart data, the ordered events of the iteration, and whether
the iteration sets `quit`. -/
def main_iteration (files : List LameFile) (skip total_size : Nat)
    (deleted : Nat → Bool) : Option (List Data) × List MainEvent × Bool :=
  let data := create_current_data files skip total_size deleted
  if total_size = 0 then
    (data, [MainEvent.buildData total_size, MainEvent.quitMessage], true)
  else
    (data, [MainEvent.buildData total_size, MainEvent.drawChart,
      MainEvent.promptInput], false)

/-- The size of the candidate at absolute index `j` (0 when out of range). -/
def size_at (files : List LameFile) (j : Nat) : Nat :=
  ((files[j]?).map (fun f => f.size)).getD 0

/-- The sum of all candidate sizes. -/
def files_size_sum (files : List LameFile) : Nat :=
  (files.map (fun f => f.size)).sum

/-- The summed sizes of the recorded successful deletions. -/
def hist_sizes (files : List LameFile) (hist : List Nat) : Nat :=
  (hist.map (size_at files)).sum

/-- The accounting invariant of the deletion session: the recorded successful
deletions are distinct candidate indices, each on the current page or an
earlier one; those on the current page are flagged in the mask; and the live
total plus the deleted sizes restores the scan-time total. -/
def SessionInv (files : List LameFile) (scan_total : Nat) (st : SessionState)
    (hist : List Nat) : Prop :=
  hist.Nodup ∧
  (∀ j ∈ hist, j < files.length ∧ j < st.skip + NUM_FILES_SHOWN) ∧
  (∀ j ∈ hist, st.skip ≤ j → st.deleted (j - st.skip) = true) ∧
  st.total_size + hist_sizes files hist = scan_total

/-- Every metadata read the scan can attempt on this yielded entry succeeds:
the metadata itself and, when it describes a regular file, the three
timestamps. -/
def entry_reads_ok (de : DirEntry) : Bool :=
  match de.metadata with
  | .error _ => false
  | .ok md =>
      !md.is_file ||
        (except_ok md.created && except_ok md.modified && except_ok md.accessed)

/-- `entry_reads_ok` lifted to walk items; a walk error performs no reads. -/
def walk_reads_ok : WalkEntry → Bool
  | .error _ => true
  | .ok de => entry_reads_ok de

/-- C2 comparison definition, stated from the claim: the sum of the sizes of
the regular files among the successfully read entries, with directories and
non-regular entries contributing nothing. -/
def spec_regular_total (entries : List WalkEntry) : Nat :=
  (entries.map (fun e =>
    match e with
    | .error _ => 0
    | .ok de =>
      match de.metadata with
      | .error _ => 0
      | .ok md => if md.is_file then md.len else 0)).sum

/-- The total the code actually accumulates: `metadata.len()` of every
successfully read entry, directories and non-regular entries included. -/
def code_walked_total (entries : List WalkEntry) : Nat :=
  (entries.map (fun e =>
    match e with
    | .error _ => 0
    | .ok de =>
      match de.metadata with
      | .error _ => 0
      | .ok md => md.len)).sum

/-- The chosen unit index is below 5 exactly for byte counts below a pebibyte. -/
lemma size_exponent_lt_five (size : Nat) :
    size_exponent (max size 1) < 5 ↔ size < 1024 ^ 5 := by
  have p2 : (1024 : ℕ) ^ 2 = 1048576 := by norm_num
  have p3 : (1024 : ℕ) ^ 3 = 1073741824 := by norm_num
  have p4 : (1024 : ℕ) ^ 4 = 1099511627776 := by norm_num
  have p5 : (1024 : ℕ) ^ 5 = 1125899906842624 := by norm_num
  have p6 : (1024 : ℕ) ^ 6 = 1152921504606846976 := by norm_num
  unfold size_exponent
  rw [p2, p3, p4, p5, p6]
  split_ifs with h1 h2 h3 h4 h5 h6 <;> omega

/-- C3: counterexample. `to_readable_size` is not total on `u64`: at
`2 ^ 51` bytes (two pebibytes, at least `1024 ^ 5`) the computed exponent is 5,
the suffix array access is out of range and the function panics instead of
clamping to the TiB unit as the claim states. -/
theorem C3_counterexample :
    to_readable_size (2 ^ 51) = none ∧ 1024 ^ 5 ≤ 2 ^ 51 := by
  constructor
  · rfl
  · norm_num

/-- C3 as amended: `to_readable_size` treats 0 bytes as 1, selects the unit
whose power-of-1024 exponent is the integer part of `log_1024 (max bytes 1)`
with no clamping, and therefore returns normally exactly for inputs below
`1024 ^ 5`; for `1024 ^ 5` bytes and beyond the unit index is out of range and
the function panics. -/
theorem C3_amended_no_clamp :
    (∀ size : Nat, (to_readable_size size).isSome = true ↔ size < 1024 ^ 5) ∧
    (∀ m : Nat, 0 < m → m < 1024 ^ 7 → size_exponent m = Nat.log 1024 m) ∧
    to_readable_size 0 = to_readable_size 1 := by
  refine ⟨?_, ?_, rfl⟩
  · intro size
    by_cases h : size_exponent (max size 1) < 5
    · refine ⟨fun _ => (size_exponent_lt_five size).mp h, fun _ => ?_⟩
      simp [to_readable_size, h]
    · simp only [to_readable_size, h, if_false, Option.isSome_none,
        Bool.false_eq_true, false_iff]
      exact fun hc => h ((size_exponent_lt_five size).mpr hc)
  · intro m hm hm7
    unfold size_exponent
    split_ifs with h1 h2 h3 h4 h5 h6
    · exact (Nat.log_eq_of_pow_le_of_lt_pow (by simpa using hm)
        (by simpa using h1)).symm
    · exact (Nat.log_eq_of_pow_le_of_lt_pow (by simpa using Nat.not_lt.mp h1) h2).symm
    · exact (Nat.log_eq_of_pow_le_of_lt_pow (Nat.not_lt.mp h2) h3).symm
    · exact (Nat.log_eq_of_pow_le_of_lt_pow (Nat.not_lt.mp h3) h4).symm
    · exact (Nat.log_eq_of_pow_le_of_lt_pow (Nat.not_lt.mp h4) h5).symm
    · exact (Nat.log_eq_of_pow_le_of_lt_pow (Nat.not_lt.mp h5) h6).symm
    · exact (Nat.log_eq_of_pow_le_of_lt_pow (Nat.not_lt.mp h6) hm7).symm

/-- Witness for the amended C3 at concrete inputs. -/
theorem C3_witness :
    (to_readable_size 3).isSome = true ∧ size_exponent 2048 = Nat.log 1024 2048 :=
  ⟨(C3_amended_no_clamp.1 3).mpr (by norm_num),
    C3_amended_no_clamp.2.1 2048 (by norm_num) (by norm_num)⟩

/-- C4: the code panics instead of reporting an invalid choice when the slot
number is within `1..=NUM_FILES_SHOWN` but beyond the current page's actual
size: with three candidates on the page and the operator entering 4, the
access `files[skip + index]` is out of bounds. -/
theorem C4_out_of_page_panic :
    process_input [⟨30, "a"⟩, ⟨20, "b"⟩, ⟨10, "c"⟩] ⟨0, 60, fun _ => false⟩
      (Input.numeric 4) DelOutcome.fileDeleted = Except.error () := rfl

/-- C5: counterexample. With a zero live total the iteration still calls
`create_current_data` (the build event happens, and it returns data) before the
`total_size <= 0` test quits; the claim that the zero check precedes building
chart data, so that the builder is never invoked with a zero live total, is
false. -/
theorem C5_counterexample :
    (main_iteration [] 0 0 (fun _ => false)).2.1 =
      [MainEvent.buildData 0, MainEvent.quitMessage] ∧
    (main_iteration [] 0 0 (fun _ => false)).1 =
      create_current_data [] 0 0 (fun _ => false) ∧
    (create_current_data [] 0 0 (fun _ => false)).isSome = true :=
  ⟨rfl, rfl, rfl⟩

/-- C5 as amended: in each loop iteration the chart data is built first and the
zero check runs after it; when the live total is zero, the iteration discards
the built data and quits without drawing the chart or prompting for input, so
the chart-data builder is invoked with a zero live total but its output is
never rendered. -/
theorem C5_amended_build_before_check (files : List LameFile) (skip : Nat)
    (deleted : Nat → Bool) (total_size : Nat) (h : total_size = 0) :
    (main_iteration files skip total_size deleted).1 =
      create_current_data files skip total_size deleted ∧
    (main_iteration files skip total_size deleted).2.1 =
      [MainEvent.buildData total_size, MainEvent.quitMessage] ∧
    (main_iteration files skip total_size deleted).2.2 = true := by
  subst h
  refine ⟨?_, ?_, ?_⟩ <;> simp [main_iteration]

/-- Witness for the amended C5 at a concrete state. -/
theorem C5_witness :
    (main_iteration [⟨7, "w"⟩] 0 0 (fun _ => false)).1 =
      create_current_data [⟨7, "w"⟩] 0 0 (fun _ => false) ∧
    (main_iteration [⟨7, "w"⟩] 0 0 (fun _ => false)).2.1 =
      [MainEvent.buildData 0, MainEvent.quitMessage] ∧
    (main_iteration [⟨7, "w"⟩] 0 0 (fun _ => false)).2.2 = true :=
  C5_amended_build_before_check [⟨7, "w"⟩] 0 (fun _ => false) 0 rfl

/-- C7: counterexample. An elapsed duration of one second plus one nanosecond
strictly exceeds a threshold of one second, yet the filter rejects it, because
the comparison truncates the duration to whole seconds first. -/
theorem C7_counterexample :
    meets_time_condition 1000000001 1 0 = false ∧
      1 * 1000000000 < 1000000001 - 0 := by
  constructor
  · rfl
  · norm_num

/-- C7 as amended: the filter passes whenever the threshold is 0; otherwise it
fails when the timestamp is after `now`, and passes exactly when the elapsed
duration, truncated to whole seconds, strictly exceeds the threshold. -/
theorem C7_amended_truncation (now min_value actual_value : Nat) :
    meets_time_condition now min_value actual_value = true ↔
      min_value = 0 ∨
        (actual_value ≤ now ∧ min_value < as_secs (now - actual_value)) := by
  unfold meets_time_condition duration_since
  split_ifs with h1 h2
  · simp [h1]
  · simp [h1, h2]
  · simp [h1, h2]

/-- The shortcut condition evaluates without error when every read it could
attempt succeeds. -/
lemma entry_eligible_ok (now mc mm ma : Nat) (md : Metadata)
    (h : md.is_file = true → except_ok md.created = true ∧
      except_ok md.modified = true ∧ except_ok md.accessed = true) :
    ∃ b, entry_eligible now mc mm ma md = Except.ok b := by
  unfold entry_eligible
  cases hf : md.is_file with
  | false => exact ⟨false, by simp [hf]⟩
  | true =>
    obtain ⟨h1, h2, h3⟩ := h hf
    rcases hc : md.created with u | c
    · rw [hc] at h1; simp [except_ok] at h1
    · rcases hm2 : md.modified with u | m
      · rw [hm2] at h2; simp [except_ok] at h2
      · rcases ha : md.accessed with u | a
        · rw [ha] at h3; simp [except_ok] at h3
        · simp only [hf, if_true, hc, hm2, ha]
          split_ifs <;> exact ⟨_, rfl⟩

/-- The scan loop returns normally whenever every yielded entry reads cleanly,
and each skipped walk error contributes exactly one diagnostic line. -/
lemma scan_entries_ok (now mc mm ma : Nat) :
    ∀ (entries : List WalkEntry) (t0 : Nat) (f0 : List LameFile) (d0 : List String),
      entries.all walk_reads_ok = true →
      ∃ t f d, scan_entries now mc mm ma entries t0 f0 d0 = .ok (t, f, d) ∧
        d.length = d0.length + (entries.filter (fun e => !walk_ok e)).length := by
  intro entries
  induction entries with
  | nil =>
    intro t0 f0 d0 _
    exact ⟨t0, f0, d0, rfl, by simp⟩
  | cons e rest ih =>
    intro t0 f0 d0 hall
    rw [List.all_cons, Bool.and_eq_true] at hall
    obtain ⟨he, hrest⟩ := hall
    cases e with
    | error msg =>
      obtain ⟨t, f, d, hrun, hlen⟩ := ih t0 f0 (d0 ++ [msg ++ ". Skipping..."]) hrest
      refine ⟨t, f, d, hrun, ?_⟩
      rw [hlen]
      simp [walk_ok]
      omega
    | ok de =>
      rcases hmd : de.metadata with u | md
      · simp [walk_reads_ok, entry_reads_ok, hmd] at he
      · simp only [walk_reads_ok, entry_reads_ok, hmd] at he
        have helig : ∃ b, entry_eligible now mc mm ma md = .ok b := by
          apply entry_eligible_ok
          intro hf
          rw [hf] at he
          simpa [and_assoc] using he
        obtain ⟨b, hb⟩ := helig
        obtain ⟨t, f, d, hrun, hlen⟩ :=
          ih (t0 + md.len) (f0 ++ (if b then [⟨md.len, de.path⟩] else [])) d0 hrest
        refine ⟨t, f, d, ?_, ?_⟩
        · simp only [scan_entries, hmd, hb]
          exact hrun
        · rw [hlen]
          simp [walk_ok]

/-- C1: counterexample. A walk in which every traversal item is yielded
successfully (so the root opened fine and no sub-entry was unreachable) still
makes `get_lame_files` fail, because the second entry's metadata read fails and
the `?` operator aborts the whole scan; the claim that an error occurs only
when the root itself cannot be opened for traversal is false. -/
theorem C1_counterexample :
    get_lame_files
        [Except.ok ⟨Except.ok ⟨0, false, Except.ok 0, Except.ok 0, Except.ok 0⟩, "root"⟩,
         Except.ok ⟨Except.error (), "root/sub"⟩] 0 0 0 0 = Except.error () ∧
      ([Except.ok ⟨Except.ok ⟨0, false, Except.ok 0, Except.ok 0, Except.ok 0⟩, "root"⟩,
        Except.ok ⟨Except.error (), "root/sub"⟩] : List WalkEntry).all walk_ok = true :=
  ⟨rfl, rfl⟩

/-- C1 as amended: traversal errors, an unreadable root included, never abort
`get_lame_files`: each is skipped with exactly one diagnostic and the scan
returns a normal result, provided every yielded entry's metadata and needed
timestamp reads succeed. (The scan fails only when such a read on a yielded
entry fails, as the counterexample shows.) -/
theorem C1_amended_soft_skip (entries : List WalkEntry) (now mc mm ma : Nat)
    (hreads : entries.all walk_reads_ok = true) :
    ∃ total files diags,
      get_lame_files entries now mc mm ma = .ok (total, files, diags) ∧
        diags.length = (entries.filter (fun e => !walk_ok e)).length := by
  obtain ⟨t, f, d, hrun, hlen⟩ := scan_entries_ok now mc mm ma entries 0 [] [] hreads
  refine ⟨t, List.insertionSort (fun a b => b.size ≤ a.size) f, d, ?_, by simpa using hlen⟩
  rw [get_lame_files, hrun]

/-- Witness for the amended C1: a stream whose first item is a traversal error
(the unreadable-root shape) still scans to a normal result with one
diagnostic. -/
theorem C1_witness :
    ∃ total files diags,
      get_lame_files
          [Except.error "Permission denied",
           Except.ok ⟨Except.ok ⟨7, true, Except.ok 0, Except.ok 0, Except.ok 0⟩, "a"⟩]
          0 0 0 0 = .ok (total, files, diags) ∧
        diags.length =
          (([Except.error "Permission denied",
             Except.ok ⟨Except.ok ⟨7, true, Except.ok 0, Except.ok 0, Except.ok 0⟩, "a"⟩] :
              List WalkEntry).filter (fun e => !walk_ok e)).length :=
  C1_amended_soft_skip _ 0 0 0 0 rfl

/-- C2: counterexample. A directory entry (4096 metadata bytes, not a regular
file, timestamps unreadable and never consulted) contributes its size to the
scan total: the result total is 4106, while the sum of the sizes of the regular
files encountered is 10; the claim that directories and non-regular entries
contribute nothing to `total_size` is false. -/
theorem C2_counterexample :
    get_lame_files
        [Except.ok ⟨Except.ok ⟨4096, false, Except.error (), Except.error (),
           Except.error ()⟩, "d"⟩,
         Except.ok ⟨Except.ok ⟨10, true, Except.ok 0, Except.ok 0, Except.ok 0⟩, "d/f"⟩]
        0 0 0 0 = Except.ok (4106, [⟨10, "d/f"⟩], []) ∧
      spec_regular_total
        [Except.ok ⟨Except.ok ⟨4096, false, Except.error (), Except.error (),
           Except.error ()⟩, "d"⟩,
         Except.ok ⟨Except.ok ⟨10, true, Except.ok 0, Except.ok 0, Except.ok 0⟩, "d/f"⟩] = 10 ∧
      (4106 : Nat) ≠ 10 :=
  ⟨rfl, rfl, by norm_num⟩

/-- The scan loop accumulates the metadata length of every successfully read
entry onto the starting total. -/
lemma scan_entries_total (now mc mm ma : Nat) :
    ∀ (entries : List WalkEntry) (t0 : Nat) (f0 : List LameFile) (d0 : List String)
      (t : Nat) (f : List LameFile) (d : List String),
      scan_entries now mc mm ma entries t0 f0 d0 = .ok (t, f, d) →
      t = t0 + code_walked_total entries := by
  intro entries
  induction entries with
  | nil =>
    intro t0 f0 d0 t f d h
    simp only [scan_entries, Except.ok.injEq, Prod.mk.injEq] at h
    simp [code_walked_total, h.1.symm]
  | cons e rest ih =>
    intro t0 f0 d0 t f d h
    cases e with
    | error msg =>
      rw [scan_entries] at h
      have := ih _ _ _ _ _ _ h
      simpa [code_walked_total] using this
    | ok de =>
      rcases hmd : de.metadata with u | md
      · simp only [scan_entries, hmd] at h
        simp at h
      · rcases hel : entry_eligible now mc mm ma md with u | b
        · simp only [scan_entries, hmd, hel] at h
          simp at h
        · simp only [scan_entries, hmd, hel] at h
          have := ih _ _ _ _ _ _ h
          simp only [code_walked_total, List.map_cons, List.sum_cons, hmd] at this ⊢
          omega

/-- C2 as amended: the total returned by `get_lame_files` is the sum of the
metadata sizes of all successfully read entries — each regular file's size is
added unconditionally, whether or not it passes the time filters, and
directories and non-regular entries contribute their metadata size as well. -/
theorem C2_amended_total (entries : List WalkEntry) (now mc mm ma : Nat)
    (total : Nat) (files : List LameFile) (diags : List String)
    (h : get_lame_files entries now mc mm ma = .ok (total, files, diags)) :
    total = code_walked_total entries := by
  rcases hs : scan_entries now mc mm ma entries 0 [] [] with u | tfd
  · simp only [get_lame_files, hs] at h
    simp at h
  · obtain ⟨t, f, d⟩ := tfd
    simp only [get_lame_files, hs] at h
    simp only [Except.ok.injEq, Prod.mk.injEq] at h
    obtain ⟨h1, -, -⟩ := h
    rw [← h1]
    simpa using scan_entries_total now mc mm ma entries 0 [] [] t f d hs

/-- Witness for the amended C2 at the concrete two-entry walk. -/
theorem C2_witness :
    (4106 : Nat) = code_walked_total
      [Except.ok ⟨Except.ok ⟨4096, false, Except.error (), Except.error (),
         Except.error ()⟩, "d"⟩,
       Except.ok ⟨Except.ok ⟨10, true, Except.ok 0, Except.ok 0, Except.ok 0⟩, "d/f"⟩] :=
  C2_amended_total _ 0 0 0 0 4106 [⟨10, "d/f"⟩] [] rfl

/-- One non-panicking `process_input` transition preserves the session
accounting invariant. -/
lemma process_input_inv (files : List LameFile) (scan_total : Nat)
    (st : SessionState) (hist : List Nat) (inp : Input) (out : DelOutcome)
    (q : Bool) (st2 : SessionState) (d : Option Nat)
    (hinv : SessionInv files scan_total st hist)
    (hstep : process_input files st inp out = .ok (q, st2, d)) :
    SessionInv files scan_total st2 (consIdx d hist) := by
  have hnum : NUM_FILES_SHOWN = 5 := rfl
  obtain ⟨hnd, hbound, hmask, hacc⟩ := hinv
  cases inp with
  | pageNext =>
    simp only [process_input] at hstep
    by_cases hlen : files.length ≤ st.skip + NUM_FILES_SHOWN
    · rw [if_pos hlen] at hstep
      simp only [Except.ok.injEq, Prod.mk.injEq] at hstep
      obtain ⟨-, hst, hd⟩ := hstep
      subst hst; subst hd
      exact ⟨hnd, hbound, hmask, hacc⟩
    · rw [if_neg hlen] at hstep
      simp only [Except.ok.injEq, Prod.mk.injEq] at hstep
      obtain ⟨-, hst, hd⟩ := hstep
      subst hst; subst hd
      refine ⟨hnd, ?_, ?_, hacc⟩
      · intro j hj
        obtain ⟨h1, h2⟩ := hbound j hj
        refine ⟨h1, ?_⟩
        dsimp only
        omega
      · intro j hj hsk
        dsimp only at hsk
        have := (hbound j hj).2
        omega
  | quitCmd =>
    simp only [process_input, Except.ok.injEq, Prod.mk.injEq] at hstep
    obtain ⟨-, hst, hd⟩ := hstep
    subst hst; subst hd
    exact ⟨hnd, hbound, hmask, hacc⟩
  | notNumeric =>
    simp only [process_input, Except.ok.injEq, Prod.mk.injEq] at hstep
    obtain ⟨-, hst, hd⟩ := hstep
    subst hst; subst hd
    exact ⟨hnd, hbound, hmask, hacc⟩
  | numeric k =>
    simp only [process_input] at hstep
    by_cases hk : 1 ≤ k ∧ k ≤ NUM_FILES_SHOWN
    · rw [if_pos hk] at hstep
      by_cases hdel : st.deleted (k - 1) = true
      · rw [if_pos hdel] at hstep
        simp only [Except.ok.injEq, Prod.mk.injEq] at hstep
        obtain ⟨-, hst, hd⟩ := hstep
        subst hst; subst hd
        exact ⟨hnd, hbound, hmask, hacc⟩
      · rw [if_neg hdel] at hstep
        rcases hg : files[st.skip + (k - 1)]? with - | file
        · rw [hg] at hstep
          simp at hstep
        · rw [hg] at hstep
          have hlt : st.skip + (k - 1) < files.length := by
            by_contra hcon
            rw [List.getElem?_eq_none (by omega)] at hg
            cases hg
          cases out with
          | declined =>
            simp only [Except.ok.injEq, Prod.mk.injEq] at hstep
            obtain ⟨-, hst, hd⟩ := hstep
            subst hst; subst hd
            exact ⟨hnd, hbound, hmask, hacc⟩
          | failed =>
            simp only [Except.ok.injEq, Prod.mk.injEq] at hstep
            obtain ⟨-, hst, hd⟩ := hstep
            subst hst; subst hd
            exact ⟨hnd, hbound, hmask, hacc⟩
          | fileDeleted =>
            rcases hcs : checkedSub st.total_size file.size with - | t2
            · simp only [hcs] at hstep
              simp at hstep
            · simp only [hcs] at hstep
              rw [checkedSub] at hcs
              split_ifs at hcs with hle
              · simp only [Option.some.injEq] at hcs
                simp only [Except.ok.injEq, Prod.mk.injEq] at hstep
                obtain ⟨-, hst, hd⟩ := hstep
                subst hst; subst hd
                have hnotmem : st.skip + (k - 1) ∉ hist := by
                  intro hmem
                  have hm := hmask (st.skip + (k - 1)) hmem (by omega)
                  have heq : st.skip + (k - 1) - st.skip = k - 1 := by omega
                  rw [heq] at hm
                  exact hdel hm
                have hsz : size_at files (st.skip + (k - 1)) = file.size := by
                  simp [size_at, hg]
                refine ⟨List.nodup_cons.mpr ⟨hnotmem, hnd⟩, ?_, ?_, ?_⟩
                · intro j hj
                  rcases List.mem_cons.mp hj with rfl | hj
                  · refine ⟨hlt, ?_⟩
                    dsimp only
                    omega
                  · obtain ⟨h1, h2⟩ := hbound j hj
                    refine ⟨h1, ?_⟩
                    dsimp only
                    omega
                · intro j hj hsk
                  dsimp only at hsk ⊢
                  rcases List.mem_cons.mp hj with rfl | hj
                  · have heq : st.skip + (k - 1) - st.skip = k - 1 := by omega
                    rw [heq]
                    exact Function.update_same (k - 1) true st.deleted
                  · by_cases hcase : j - st.skip = k - 1
                    · exfalso
                      have : j = st.skip + (k - 1) := by omega
                      rw [this] at hj
                      exact hnotmem hj
                    · rw [Function.update_noteq hcase]
                      exact hmask j hj hsk
                · dsimp only
                  simp only [consIdx, hist_sizes, List.map_cons, List.sum_cons]
                    at hacc ⊢
                  rw [hsz]
                  omega
    · rw [if_neg hk] at hstep
      simp only [Except.ok.injEq, Prod.mk.injEq] at hstep
      obtain ⟨-, hst, hd⟩ := hstep
      subst hst; subst hd
      exact ⟨hnd, hbound, hmask, hacc⟩

/-- Every prefix of a session run preserves the accounting invariant. -/
lemma run_session_inv (files : List LameFile) (scan_total : Nat) :
    ∀ (inputs : List (Input × DelOutcome)) (st : SessionState) (hist : List Nat)
      (st2 : SessionState) (hist2 : List Nat),
      SessionInv files scan_total st hist →
      run_session files st hist inputs = .ok (st2, hist2) →
      SessionInv files scan_total st2 hist2 := by
  intro inputs
  induction inputs with
  | nil =>
    intro st hist st2 hist2 hinv hrun
    simp only [run_session, Except.ok.injEq, Prod.mk.injEq] at hrun
    obtain ⟨h1, h2⟩ := hrun
    subst h1; subst h2
    exact hinv
  | cons p rest ih =>
    intro st hist st2 hist2 hinv hrun
    obtain ⟨inp, out⟩ := p
    rw [run_session] at hrun
    rcases hp : process_input files st inp out with u | r
    · rw [hp] at hrun
      cases hrun
    · obtain ⟨q, stm, d⟩ := r
      rw [hp] at hrun
      have hmid := process_input_inv files scan_total st hist inp out q stm d hinv hp
      cases q with
      | true =>
        simp only [Except.ok.injEq, Prod.mk.injEq] at hrun
        obtain ⟨h1, h2⟩ := hrun
        subst h1; subst h2
        exact hmid
      | false =>
        exact ih stm (consIdx d hist) st2 hist2 hmid hrun

/-- C6: after every session run started from the scan result (offset 0, clear
mask, live total seeded with the scan total), the live total equals the scan
total minus the summed sizes of the candidates whose deletion succeeded, across
all pages visited; those recorded deletions are distinct candidates and their
summed size never exceeds the scan total. -/
theorem C6_live_total_accounting (files : List LameFile) (scan_total : Nat)
    (inputs : List (Input × DelOutcome)) (st2 : SessionState) (hist2 : List Nat)
    (hrun : run_session files ⟨0, scan_total, fun _ => false⟩ [] inputs =
      .ok (st2, hist2)) :
    hist2.Nodup ∧ hist_sizes files hist2 ≤ scan_total ∧
      st2.total_size = scan_total - hist_sizes files hist2 := by
  have hinit : SessionInv files scan_total ⟨0, scan_total, fun _ => false⟩ [] := by
    refine ⟨List.nodup_nil, ?_, ?_, ?_⟩
    · intro j hj; cases hj
    · intro j hj; cases hj
    · simp [hist_sizes]
  obtain ⟨h1, -, -, h4⟩ :=
    run_session_inv files scan_total inputs _ [] st2 hist2 hinit hrun
  exact ⟨h1, by omega, by omega⟩

/-- Witness for C6: delete the largest of two candidates, then quit. -/
theorem C6_witness :
    ∃ st2 hist2,
      run_session [⟨30, "a"⟩, ⟨20, "b"⟩] ⟨0, 60, fun _ => false⟩ []
          [(Input.numeric 1, DelOutcome.fileDeleted),
           (Input.quitCmd, DelOutcome.declined)] = .ok (st2, hist2) ∧
        (hist2.Nodup ∧ hist_sizes [⟨30, "a"⟩, ⟨20, "b"⟩] hist2 ≤ 60 ∧
          st2.total_size = 60 - hist_sizes [⟨30, "a"⟩, ⟨20, "b"⟩] hist2) :=
  ⟨_, _, rfl, C6_live_total_accounting [⟨30, "a"⟩, ⟨20, "b"⟩] 60
    [(Input.numeric 1, DelOutcome.fileDeleted),
     (Input.quitCmd, DelOutcome.declined)] _ _ rfl⟩

/-- C10: frame conditions of one transition. A Delete (numeric) command never
changes the pagination offset and changes the mask in at most one slot; a
NextPage command never changes the live total, and either leaves the state
unchanged (when it quits) or advances the offset by one page and clears the
whole mask; Quit and unrecognized input leave the state unchanged. -/
theorem C10_frame (files : List LameFile) (st : SessionState) (inp : Input)
    (out : DelOutcome) (q : Bool) (st2 : SessionState) (d : Option Nat)
    (hstep : process_input files st inp out = .ok (q, st2, d)) :
    ((∃ k, inp = Input.numeric k) → st2.skip = st.skip ∧
      ∃ i, ∀ j, j ≠ i → st2.deleted j = st.deleted j) ∧
    (inp = Input.pageNext → st2.total_size = st.total_size ∧
      (st2 = st ∨ (st2.skip = st.skip + NUM_FILES_SHOWN ∧
        ∀ j, st2.deleted j = false))) ∧
    (inp = Input.quitCmd ∨ inp = Input.notNumeric → st2 = st) := by
  cases inp with
  | pageNext =>
    simp only [process_input] at hstep
    refine ⟨fun hex => ?_, fun _ => ?_, fun hor => ?_⟩
    · obtain ⟨k, hk⟩ := hex; cases hk
    · by_cases hlen : files.length ≤ st.skip + NUM_FILES_SHOWN
      · rw [if_pos hlen] at hstep
        simp only [Except.ok.injEq, Prod.mk.injEq] at hstep
        obtain ⟨-, hst, -⟩ := hstep
        subst hst
        exact ⟨rfl, Or.inl rfl⟩
      · rw [if_neg hlen] at hstep
        simp only [Except.ok.injEq, Prod.mk.injEq] at hstep
        obtain ⟨-, hst, -⟩ := hstep
        subst hst
        exact ⟨rfl, Or.inr ⟨rfl, fun j => rfl⟩⟩
    · rcases hor with h | h <;> cases h
  | quitCmd =>
    simp only [process_input, Except.ok.injEq, Prod.mk.injEq] at hstep
    obtain ⟨-, hst, -⟩ := hstep
    subst hst
    refine ⟨fun hex => ?_, fun h => ?_, fun _ => rfl⟩
    · obtain ⟨k, hk⟩ := hex; cases hk
    · cases h
  | notNumeric =>
    simp only [process_input, Except.ok.injEq, Prod.mk.injEq] at hstep
    obtain ⟨-, hst, -⟩ := hstep
    subst hst
    refine ⟨fun hex => ?_, fun h => ?_, fun _ => rfl⟩
    · obtain ⟨k, hk⟩ := hex; cases hk
    · cases h
  | numeric k =>
    simp only [process_input] at hstep
    have hframe : st2.skip = st.skip ∧
        ∃ i, ∀ j, j ≠ i → st2.deleted j = st.deleted j := by
      by_cases hk : 1 ≤ k ∧ k ≤ NUM_FILES_SHOWN
      · rw [if_pos hk] at hstep
        by_cases hdel : st.deleted (k - 1) = true
        · rw [if_pos hdel] at hstep
          simp only [Except.ok.injEq, Prod.mk.injEq] at hstep
          obtain ⟨-, hst, -⟩ := hstep
          subst hst
          exact ⟨rfl, 0, fun j hj => rfl⟩
        · rw [if_neg hdel] at hstep
          rcases hg : files[st.skip + (k - 1)]? with - | file
          · rw [hg] at hstep
            simp at hstep
          · rw [hg] at hstep
            cases out with
            | declined =>
              simp only [Except.ok.injEq, Prod.mk.injEq] at hstep
              obtain ⟨-, hst, -⟩ := hstep
              subst hst
              exact ⟨rfl, 0, fun j hj => rfl⟩
            | failed =>
              simp only [Except.ok.injEq, Prod.mk.injEq] at hstep
              obtain ⟨-, hst, -⟩ := hstep
              subst hst
              exact ⟨rfl, 0, fun j hj => rfl⟩
            | fileDeleted =>
              rcases hcs : checkedSub st.total_size file.size with - | t2
              · simp only [hcs] at hstep
                simp at hstep
              · simp only [hcs] at hstep
                simp only [Except.ok.injEq, Prod.mk.injEq] at hstep
                obtain ⟨-, hst, -⟩ := hstep
                subst hst
                exact ⟨rfl, k - 1, fun j hj => Function.update_noteq hj true st.deleted⟩
      · rw [if_neg hk] at hstep
        simp only [Except.ok.injEq, Prod.mk.injEq] at hstep
        obtain ⟨-, hst, -⟩ := hstep
        subst hst
        exact ⟨rfl, 0, fun j hj => rfl⟩
    refine ⟨fun _ => hframe, fun h => ?_, fun hor => ?_⟩
    · cases h
    · rcases hor with h | h <;> cases h

/-- Witness for C10: a successful Delete of slot 1 keeps the offset and changes
the mask in at most one slot. -/
theorem C10_witness :
    ∃ q st2 d,
      process_input [⟨30, "a"⟩] ⟨0, 30, fun _ => false⟩ (Input.numeric 1)
          DelOutcome.fileDeleted = .ok (q, st2, d) ∧
        st2.skip = 0 ∧ ∃ i, ∀ j, j ≠ i → st2.deleted j = false := by
  obtain ⟨h1, -, -⟩ := C10_frame [⟨30, "a"⟩] ⟨0, 30, fun _ => false⟩
    (Input.numeric 1) DelOutcome.fileDeleted _ _ _ rfl
  obtain ⟨hskip, i, hmask⟩ := h1 ⟨1, rfl⟩
  exact ⟨_, _, _, rfl, hskip, i, hmask⟩

/-- A page candidate whose mask slot is clear survives the filter, paired with
its page position. -/
lemma mem_page_survivors (files : List LameFile) (skip : Nat)
    (deleted : Nat → Bool) (i : Nat) (f : LameFile)
    (hget : ((files.drop skip).take NUM_FILES_SHOWN)[i]? = some f)
    (hmask : deleted i = false) :
    (i, f) ∈ page_survivors files skip deleted := by
  have hi : i < ((files.drop skip).take NUM_FILES_SHOWN).length := by
    by_contra hcon
    rw [List.getElem?_eq_none (by omega)] at hget
    cases hget
  have hi5 : i < NUM_FILES_SHOWN := by
    have := List.length_take_le NUM_FILES_SHOWN (files.drop skip)
    omega
  have hzip : (((files.drop skip).take NUM_FILES_SHOWN).zip
      (List.ofFn (fun j : Fin NUM_FILES_SHOWN => deleted j)))[i]? = some (f, false) := by
    rw [List.getElem?_zip_eq_some]
    refine ⟨hget, ?_⟩
    rw [List.getElem?_ofFn]
    simp [List.ofFnNthVal, hi5, hmask]
  have henum : (i, (f, false)) ∈ (((files.drop skip).take NUM_FILES_SHOWN).zip
      (List.ofFn (fun j : Fin NUM_FILES_SHOWN => deleted j))).enum :=
    List.mk_mem_enum_iff_getElem?.mpr hzip
  unfold page_survivors
  apply List.mem_map.mpr
  refine ⟨(i, (f, false)), ?_, rfl⟩
  apply List.mem_filter.mpr
  exact ⟨henum, by simp⟩

/-- Every surviving pair contributes its slice, labelled with its page
position, to the per-file slice list. -/
lemma build_slices_mem (total_size : Nat) :
    ∀ (xs : List (Nat × LameFile)) (ds : List Data),
      build_slices total_size xs = some ds →
      ∀ (i : Nat) (f : LameFile) (l : String), (i, f) ∈ xs →
        slice_label i f = some l →
        ({ label := l, value := (f.size : ℚ) / (total_size : ℚ),
           color := PColor.fixed (i + 1), fill := '•' } : Data) ∈ ds := by
  intro xs
  induction xs with
  | nil =>
    intro ds h i f l hmem hl
    cases hmem
  | cons p rest ih =>
    intro ds h i f l hmem hl
    obtain ⟨a, b⟩ := p
    simp only [build_slices] at h
    rcases hla : slice_label a b with - | la
    · simp only [hla] at h
      simp at h
    · simp only [hla] at h
      rcases hbs : build_slices total_size rest with - | ds2
      · simp only [hbs] at h
        simp at h
      · simp only [hbs, Option.some.injEq] at h
        subst h
        rcases List.mem_cons.mp hmem with heq | hmem2
        · obtain ⟨h1, h2⟩ := Prod.mk.injEq .. |>.mp heq
          subst h1
          subst h2
          rw [hla] at hl
          simp only [Option.some.injEq] at hl
          subst hl
          exact List.mem_cons_self _ _
        · exact List.mem_cons_of_mem _ (ih ds2 hbs i f l hmem2 hl)

/-- Every per-file slice carries the bullet fill. -/
lemma build_slices_fill (total_size : Nat) :
    ∀ (xs : List (Nat × LameFile)) (ds : List Data),
      build_slices total_size xs = some ds → ∀ s ∈ ds, s.fill = '•' := by
  intro xs
  induction xs with
  | nil =>
    intro ds h s hs
    simp only [build_slices, Option.some.injEq] at h
    subst h
    cases hs
  | cons p rest ih =>
    intro ds h s hs
    obtain ⟨a, b⟩ := p
    simp only [build_slices] at h
    rcases hla : slice_label a b with - | la
    · simp only [hla] at h
      simp at h
    · simp only [hla] at h
      rcases hbs : build_slices total_size rest with - | ds2
      · simp only [hbs] at h
        simp at h
      · simp only [hbs, Option.some.injEq] at h
        subst h
        rcases List.mem_cons.mp hs with rfl | hs2
        · rfl
        · exact ih ds2 hbs s hs2

/-- A surviving page candidate's slice, with its page-positional slot number,
is in the built chart data. -/
lemma slice_mem_create (files : List LameFile) (skip total_size : Nat)
    (deleted : Nat → Bool) (data : List Data) (i : Nat) (f : LameFile) (l : String)
    (hdata : create_current_data files skip total_size deleted = some data)
    (hget : ((files.drop skip).take NUM_FILES_SHOWN)[i]? = some f)
    (hmask : deleted i = false)
    (hlabel : slice_label i f = some l) :
    ({ label := l, value := (f.size : ℚ) / (total_size : ℚ),
       color := PColor.fixed (i + 1), fill := '•' } : Data) ∈ data := by
  have hmem := mem_page_survivors files skip deleted i f hget hmask
  simp only [create_current_data] at hdata
  rcases hbs : build_slices total_size (page_survivors files skip deleted) with - | ds
  · simp only [hbs] at hdata
    simp at hdata
  · simp only [hbs] at hdata
    rcases hcs : checkedSub total_size (page_live_size files skip deleted) with - | os
    · simp only [hcs] at hdata
      simp at hdata
    · simp only [hcs] at hdata
      rcases hrs : to_readable_size os with - | s0
      · simp only [hrs] at hdata
        simp at hdata
      · simp only [hrs, Option.some.injEq] at hdata
        subst hdata
        exact List.mem_append_left _
          (build_slices_mem total_size _ ds hbs i f l hmem hlabel)

/-- C8: each per-file slice is labelled with the candidate's 1-based position
within the page, not within the filtered output: a surviving candidate at page
position `i` yields the slice labelled `(i + 1)`, and marking any earlier slot
`j < i` deleted leaves that identical slice (same label, same slot number) in
the rebuilt data. -/
theorem C8_slot_numbering (files : List LameFile) (skip total_size : Nat)
    (deleted : Nat → Bool) (data : List Data) (i : Nat) (f : LameFile) (l : String)
    (hdata : create_current_data files skip total_size deleted = some data)
    (hget : ((files.drop skip).take NUM_FILES_SHOWN)[i]? = some f)
    (hmask : deleted i = false)
    (hlabel : slice_label i f = some l) :
    ({ label := l, value := (f.size : ℚ) / (total_size : ℚ),
       color := PColor.fixed (i + 1), fill := '•' } : Data) ∈ data ∧
    ∀ (j : Nat) (data2 : List Data), j < i →
      create_current_data files skip total_size (Function.update deleted j true) =
        some data2 →
      ({ label := l, value := (f.size : ℚ) / (total_size : ℚ),
         color := PColor.fixed (i + 1), fill := '•' } : Data) ∈ data2 := by
  refine ⟨slice_mem_create files skip total_size deleted data i f l hdata hget
    hmask hlabel, ?_⟩
  intro j data2 hj hdata2
  refine slice_mem_create files skip total_size _ data2 i f l hdata2 hget ?_ hlabel
  rw [Function.update_noteq (show i ≠ j by omega)]
  exact hmask

/-- Witness for C8: with two surviving candidates, the second keeps slot number
2, also after slot 1 is marked deleted. -/
theorem C8_witness :
    ∃ (data data2 : List Data) (l : String),
      slice_label 1 ⟨40, "b"⟩ = some l ∧
      create_current_data [⟨50, "a"⟩, ⟨40, "b"⟩] 0 100 (fun _ => false) =
        some data ∧
      create_current_data [⟨50, "a"⟩, ⟨40, "b"⟩] 0 100
        (Function.update (fun _ => false) 0 true) = some data2 ∧
      ({ label := l, value := (((40 : Nat) : ℚ) / ((100 : Nat) : ℚ)),
         color := PColor.fixed 2, fill := '•' } : Data) ∈ data ∧
      ({ label := l, value := (((40 : Nat) : ℚ) / ((100 : Nat) : ℚ)),
         color := PColor.fixed 2, fill := '•' } : Data) ∈ data2 := by
  obtain ⟨h1, h2⟩ := C8_slot_numbering [⟨50, "a"⟩, ⟨40, "b"⟩] 0 100
    (fun _ => false) _ 1 ⟨40, "b"⟩ _ rfl rfl rfl rfl
  exact ⟨_, _, _, rfl, rfl, rfl, h1, h2 0 _ (by norm_num) rfl⟩

/-- C9: the built chart data always ends with exactly one aggregate Other
slice: the data is the per-file slices (all bullet-filled) followed by one
gray, dash-filled slice whose value is the live total minus the emitted
per-file sizes, divided by the live total passed to this call — so after a
deletion it is recomputed against the new live total. The slice is present
even when that difference is zero, and the emitted sizes never exceed the live
total on a normal return. -/
theorem C9_other_slice (files : List LameFile) (skip total_size : Nat)
    (deleted : Nat → Bool) (data : List Data)
    (_hpos : 0 < total_size)
    (hdata : create_current_data files skip total_size deleted = some data) :
    page_live_size files skip deleted ≤ total_size ∧
    ∃ (front : List Data) (other : Data), data = front ++ [other] ∧
      other.value =
        ((total_size - page_live_size files skip deleted : Nat) : ℚ) /
          (total_size : ℚ) ∧
      other.fill = '-' ∧ other.color = PColor.rgb 100 100 100 ∧
      ∀ s ∈ front, s.fill = '•' := by
  simp only [create_current_data] at hdata
  rcases hbs : build_slices total_size (page_survivors files skip deleted) with - | ds
  · simp only [hbs] at hdata
    simp at hdata
  · simp only [hbs] at hdata
    rcases hcs : checkedSub total_size (page_live_size files skip deleted) with - | os
    · simp only [hcs] at hdata
      simp at hdata
    · simp only [hcs] at hdata
      rw [checkedSub] at hcs
      split_ifs at hcs with hle
      · simp only [Option.some.injEq] at hcs
        rcases hrs : to_readable_size os with - | s0
        · simp only [hrs] at hdata
          simp at hdata
        · simp only [hrs, Option.some.injEq] at hdata
          subst hdata
          refine ⟨hle, ds, _, rfl, ?_, rfl, rfl,
            build_slices_fill total_size _ ds hbs⟩
          dsimp only
          rw [← hcs]

/-- Witness for C9: one candidate of size 50 with live total 60 leaves an
Other slice worth 10/60. -/
theorem C9_witness :
    ∃ data,
      create_current_data [⟨50, "a"⟩] 0 60 (fun _ => false) = some data ∧
      (page_live_size [⟨50, "a"⟩] 0 (fun _ => false) ≤ 60 ∧
        ∃ (front : List Data) (other : Data), data = front ++ [other] ∧
          other.value =
            ((60 - page_live_size [⟨50, "a"⟩] 0 (fun _ => false) : Nat) : ℚ) /
              ((60 : Nat) : ℚ) ∧
          other.fill = '-' ∧ other.color = PColor.rgb 100 100 100 ∧
          ∀ s ∈ front, s.fill = '•') :=
  ⟨_, rfl, C9_other_slice [⟨50, "a"⟩] 0 60 (fun _ => false) _ (by norm_num) rfl⟩

end Piecut
